import Mathlib

/-!
Verification of the kcp-dev/catalog CatalogEntry reconciler
(controllers/catalogentry_controller.go) against its specification.

The reconciler is embedded shallowly: the object store is a function from
(workspace path, export name) to a lookup result, the loop over
`Spec.Exports` becomes structural recursion over the list, machine time
(`metav1.Now()`) is an abstract `Nat` instant threaded as a parameter, and
the vendored kcp third_party conditions utility (`conditions.Set`,
cluster-api lineage) is embedded alongside.
-/

set_option maxHeartbeats 1000000

namespace Catalog

/-- `metav1.GroupResource`: one group/resource pair as recorded in
`CatalogEntryStatus.Resources` (api/v1alpha1/catalogentry_types.go). -/
structure GroupResource where
  group : String
  resource : String
  deriving DecidableEq, Repr

/-- `apisv1alpha1.PermissionClaim` from the kcp APIExport API: a claimed
group/resource plus identity hash, aggregated verbatim into status. -/
structure PermissionClaim where
  group : String
  resource : String
  identityHash : String
  deriving DecidableEq, Repr

/-- `apisv1alpha1.WorkspaceExportReference` inside an
`apisv1alpha1.ExportReference`: the workspace path and export name one entry
of `Spec.Exports` points at. -/
structure ExportReference where
  path : String
  exportName : String
  deriving DecidableEq, Repr

/-- The part of `apisv1alpha1.APIExport` the reconciler reads:
`Spec.LatestResourceSchemas` (identifiers of shape "version.resource.group")
and `Spec.PermissionClaims`. -/
structure APIExport where
  latestResourceSchemas : List String
  permissionClaims : List PermissionClaim
  deriving DecidableEq, Repr

/-- `conditionsapi.Condition`: status and severity keep their Go string
representations (`corev1.ConditionStatus`, `conditionsapi.ConditionSeverity`);
`metav1.Time` is an abstract `Nat` instant. -/
structure Condition where
  type : String
  status : String
  severity : String
  reason : String
  message : String
  lastTransitionTime : Nat
  deriving DecidableEq, Repr

/-- `CatalogEntryStatus` (api/v1alpha1/catalogentry_types.go). -/
structure CatalogEntryStatus where
  exportPermissionClaims : List PermissionClaim
  resources : List GroupResource
  conditions : List Condition
  deriving DecidableEq, Repr

/-- `CatalogEntrySpec` (api/v1alpha1/catalogentry_types.go). -/
structure CatalogEntrySpec where
  exports : List ExportReference
  description : String
  deriving DecidableEq, Repr

/-- `CatalogEntry`: object identity reduced to its name (the request's
namespaced name within the logical cluster). -/
structure CatalogEntry where
  name : String
  spec : CatalogEntrySpec
  status : CatalogEntryStatus
  deriving DecidableEq, Repr

/-- Outcome classification of a store `Get`: the code distinguishes
`errors.IsNotFound(err)` from every other error. -/
inductive GetErr where
  | notFound
  | other (msg : String)
  deriving DecidableEq, Repr

/-- The export side of the object store for one reconcile pass: lookup by
workspace path and export name.  The Go call also passes `req.Namespace`,
which is constant across one pass and therefore absorbed into the function. -/
abbrev ExportStore : Type := String → String → Except GetErr APIExport

/-- `catalogv1alpha1.APIExportValidType` (api/v1alpha1/catalogentry_types.go). -/
def APIExportValidType : String := "APIExportValid"

/-- `corev1.ConditionTrue`. -/
def ConditionTrue : String := "True"

/-- `corev1.ConditionFalse`. -/
def ConditionFalse : String := "False"

/-- `conditionsapi.ConditionSeverityNone`. -/
def SeverityNone : String := ""

/-- `conditionsapi.ConditionSeverityError`. -/
def SeverityError : String := "Error"

/-- Splitting a character list at every occurrence of a separator character:
Go `strings.Split` for a one-character separator (the only shape of
separator the code uses — `split3` is always called with "."). -/
def splitChar (sep : Char) : List Char → List (List Char)
  | [] => [[]]
  | ch :: rest =>
    if ch = sep then [] :: splitChar sep rest
    else
      match splitChar sep rest with
      | [] => [[ch]]
      | part :: parts => (ch :: part) :: parts

/-- Go `strings.SplitN(s, sep, 3)` for a one-character separator: at most
three substrings, the last one being the unsplit remainder. -/
def splitN3 (s : String) (sep : Char) : List String :=
  let parts := (splitChar sep s.data).map (fun cs => String.mk cs)
  if parts.length ≤ 3 then parts
  else parts.take 2 ++ [String.intercalate (String.mk [sep]) (parts.drop 2)]

/-- `split3` (controllers/catalogentry_controller.go, lines 177-183):
`strings.SplitN(s, sep, 3)`, failing unless exactly three components come
back. -/
def split3 (s : String) (sep : Char) : String × String × String × Bool :=
  match splitN3 s sep with
  | [a, b, c] => (a, b, c, true)
  | _ => ("", "", "", false)

/-- The inner loop over `export.Spec.LatestResourceSchemas` (lines 124-134):
each identifier is split by `split3` into (version, resource, group); on
success a `GroupResource` is appended, otherwise the identifier is skipped
(`continue`). -/
def resourcesOf : List String → List GroupResource
  | [] => []
  | schemaName :: rest =>
    match split3 schemaName '.' with
    | (_, resource, group, true) => { group := group, resource := resource } :: resourcesOf rest
    | (_, _, _, false) => resourcesOf rest

/-- The mutable state of the reference loop in `Reconcile`: the three running
lists (`resources`, `exportPermissionClaims`, `invalidExports`) plus the
in-memory entry status being mutated. -/
structure LoopState where
  resources : List GroupResource
  exportPermissionClaims : List PermissionClaim
  invalidExports : List String
  status : CatalogEntryStatus
  deriving DecidableEq, Repr

/-- One iteration of `for _, exportRef := range catalogEntry.Spec.Exports`
(lines 95-136).  On a lookup error — not-found or any other — the
`"path/exportName"` string is appended to `invalidExports` and the iteration
ends (`continue`); on success the export's permission claims and parsed
schema resources are appended to the running lists and both running lists
are assigned to the entry status. -/
def processExport (store : ExportStore) (st : LoopState) (ref : ExportReference) : LoopState :=
  match store ref.path ref.exportName with
  | .error _ =>
    { st with invalidExports := st.invalidExports ++ [ref.path ++ "/" ++ ref.exportName] }
  | .ok exp =>
    let claims := st.exportPermissionClaims ++ exp.permissionClaims
    let resources := st.resources ++ resourcesOf exp.latestResourceSchemas
    { resources := resources
      exportPermissionClaims := claims
      invalidExports := st.invalidExports
      status := { st.status with
        exportPermissionClaims := claims
        resources := resources } }

/-- The reference loop itself, iterated in spec order. -/
def resolveLoop (store : ExportStore) : List ExportReference → LoopState → LoopState
  | [], st => st
  | ref :: rest, st => resolveLoop store rest (processExport store st ref)

/-- Loop state at entry to the loop: the three running lists start empty
(lines 92-94) and the status is the fetched one. -/
def initState (status : CatalogEntryStatus) : LoopState :=
  { resources := [], exportPermissionClaims := [], invalidExports := [], status := status }

/-- The whole resolution-and-aggregation phase of one pass. -/
def resolveExports (store : ExportStore) (exports : List ExportReference)
    (status : CatalogEntryStatus) : LoopState :=
  resolveLoop store exports (initState status)

/-- The condition computed after the loop (lines 138-156): empty invalid list
gives True/none, non-empty gives False/Error with message
`"invalid export(s): "` followed by `strings.Join(invalidExports, " ,")`. -/
def computeCondition (invalidExports : List String) (now : Nat) : Condition :=
  if invalidExports.isEmpty then
    { type := APIExportValidType, status := ConditionTrue, severity := SeverityNone
      reason := "", message := "", lastTransitionTime := now }
  else
    { type := APIExportValidType, status := ConditionFalse, severity := SeverityError
      reason := ""
      message := "invalid export(s): " ++ String.intercalate " ," invalidExports
      lastTransitionTime := now }

/-- `hasSameState` from the vendored kcp third_party conditions utility
(cluster-api lineage): two conditions agree on every field except the
transition time. -/
def hasSameState (a b : Condition) : Bool :=
  a.type == b.type && a.status == b.status && a.reason == b.reason &&
    a.severity == b.severity && a.message == b.message

/-- The total preorder by which the conditions utility sorts the condition
list: Go sorts with the strict `lexicographicLess i j = (i.Type == "Ready" ||
i.Type < j.Type) && j.Type != "Ready"`; the model sorts stably by the
complementary non-strict relation `not lexicographicLess b a`, which unfolds
to the relation below. -/
def condLE (a b : Condition) : Prop :=
  a.type = "Ready" ∨ (b.type ≠ "Ready" ∧ a.type ≤ b.type)

instance : DecidableRel condLE := fun a b =>
  inferInstanceAs (Decidable (a.type = "Ready" ∨ (b.type ≠ "Ready" ∧ a.type ≤ b.type)))

instance : IsTotal Condition condLE := by
  constructor
  intro a b
  by_cases ha : a.type = "Ready"
  · exact Or.inl (Or.inl ha)
  by_cases hb : b.type = "Ready"
  · exact Or.inr (Or.inl hb)
  rcases le_total a.type b.type with h | h
  · exact Or.inl (Or.inr ⟨hb, h⟩)
  · exact Or.inr (Or.inr ⟨ha, h⟩)

instance : IsTrans Condition condLE := by
  constructor
  intro a b c hab hbc
  rcases hab with ha | ⟨hb, hab⟩
  · exact Or.inl ha
  rcases hbc with hb2 | ⟨hc, hbc⟩
  · exact absurd hb2 hb
  · exact Or.inr ⟨hc, le_trans hab hbc⟩

/-- The `sort.Slice(conditions, lexicographicLess)` step of `conditions.Set`,
modelled as a stable insertion sort by `condLE` (Go's unstable sort is
unspecified on ties; any order consistent with the strict relation is a
valid library output, and this one is deterministic). -/
def sortConds (conds : List Condition) : List Condition :=
  List.insertionSort condLE conds

/-- The search-and-replace loop inside `conditions.Set`: find the first
condition with the incoming type; if its state is unchanged keep the list as
is (preserving the stored transition time), otherwise replace that slot with
the incoming condition stamped at the current instant.  `none` means no
condition of the type exists yet. -/
def setLoop (c : Condition) (now : Nat) : List Condition → Option (List Condition)
  | [] => none
  | d :: rest =>
    if d.type == c.type then
      if hasSameState d c then some (d :: rest)
      else some ({ c with lastTransitionTime := now } :: rest)
    else
      match setLoop c now rest with
      | some rest2 => some (d :: rest2)
      | none => none

/-- `conditions.Set` from the vendored kcp third_party conditions utility:
update-in-place keyed on the condition type, insert if absent (stamping the
transition time if it is still zero), then sort. -/
def conditionsSet (conds : List Condition) (c : Condition) (now : Nat) : List Condition :=
  match setLoop c now conds with
  | some conds2 => sortConds conds2
  | none =>
    sortConds (conds ++
      [{ c with lastTransitionTime := if c.lastTransitionTime = 0 then now else c.lastTransitionTime }])

/-- The candidate status one pass computes for a fetched entry: the loop of
lines 91-136 followed by the condition write of lines 138-156. -/
def candidateStatus (store : ExportStore) (now : Nat) (entry : CatalogEntry) :
    CatalogEntryStatus :=
  let st := resolveExports store entry.spec.exports entry.status
  let cond := computeCondition st.invalidExports now
  { st.status with conditions := conditionsSet st.status.conditions cond now }

/-- Observable outcome of one `Reconcile` invocation: the error returned to
the controller runtime, the status update issued to the store (if any), and
the in-memory entry after the pass (for a fetched entry). -/
structure ReconcileResult where
  err : Option GetErr
  statusWrite : Option CatalogEntry
  entry : Option CatalogEntry
  deriving DecidableEq, Repr

/-- `Reconcile` (controllers/catalogentry_controller.go, lines 71-168).
`getEntry` is the store's answer to the fetch of the requested entry;
`updateErr` is the store's answer to a status update, were one issued.
Not-found at fetch is swallowed; any other fetch error is returned; the
status is updated only when it differs from the fetched one, and an update
error is returned. -/
def Reconcile (getEntry : Except GetErr CatalogEntry) (store : ExportStore)
    (updateErr : Option GetErr) (now : Nat) : ReconcileResult :=
  match getEntry with
  | .error .notFound => { err := none, statusWrite := none, entry := none }
  | .error (.other msg) => { err := some (.other msg), statusWrite := none, entry := none }
  | .ok catalogEntry =>
    let newStatus := candidateStatus store now catalogEntry
    let newEntry := { catalogEntry with status := newStatus }
    if newStatus = catalogEntry.status then
      { err := none, statusWrite := none, entry := some newEntry }
    else
      match updateErr with
      | none => { err := none, statusWrite := some newEntry, entry := some newEntry }
      | some e => { err := some e, statusWrite := some newEntry, entry := some newEntry }

/-! ### Specification-side derived notions -/

/-- Whether the lookup of one reference fails in the given store (either
not-found or any other error). -/
def refFails (store : ExportStore) (ref : ExportReference) : Bool :=
  match store ref.path ref.exportName with
  | .ok _ => false
  | .error _ => true

/-- The `"path/exportName"` strings of the failing references, in spec
order. -/
def invalidRefs (store : ExportStore) (exports : List ExportReference) : List String :=
  (exports.filter (refFails store)).map (fun r => r.path ++ "/" ++ r.exportName)

/-- Resources aggregated from the successfully resolved exports, in spec
order, duplicates preserved. -/
def aggResources (store : ExportStore) : List ExportReference → List GroupResource
  | [] => []
  | ref :: rest =>
    (match store ref.path ref.exportName with
     | .ok exp => resourcesOf exp.latestResourceSchemas
     | .error _ => []) ++ aggResources store rest

/-- Permission claims aggregated from the successfully resolved exports, in
spec order, duplicates preserved. -/
def aggClaims (store : ExportStore) : List ExportReference → List PermissionClaim
  | [] => []
  | ref :: rest =>
    (match store ref.path ref.exportName with
     | .ok exp => exp.permissionClaims
     | .error _ => []) ++ aggClaims store rest

/-- Whether at least one reference of the list resolves successfully. -/
def anySuccess (store : ExportStore) (exports : List ExportReference) : Bool :=
  exports.any (fun r => !refFails store r)

/-- Number of conditions of a given type in a condition list. -/
def countType (conds : List Condition) (t : String) : Nat :=
  (conds.filter (fun x => x.type == t)).length

/-! ### Characterization of the resolution loop -/

theorem aggResources_eq_nil (store : ExportStore) (exports : List ExportReference)
    (h : anySuccess store exports = false) : aggResources store exports = [] := by
  induction exports with
  | nil => rfl
  | cons ref rest ih =>
    simp only [anySuccess, List.any_cons, Bool.or_eq_false_iff] at h
    cases hs : store ref.path ref.exportName with
    | ok exp =>
      exfalso
      have h1 := h.1
      simp [refFails, hs] at h1
    | error e =>
      simp only [aggResources, hs, List.nil_append]
      exact ih (by simpa [anySuccess] using h.2)

theorem aggClaims_eq_nil (store : ExportStore) (exports : List ExportReference)
    (h : anySuccess store exports = false) : aggClaims store exports = [] := by
  induction exports with
  | nil => rfl
  | cons ref rest ih =>
    simp only [anySuccess, List.any_cons, Bool.or_eq_false_iff] at h
    cases hs : store ref.path ref.exportName with
    | ok exp =>
      exfalso
      have h1 := h.1
      simp [refFails, hs] at h1
    | error e =>
      simp only [aggClaims, hs, List.nil_append]
      exact ih (by simpa [anySuccess] using h.2)

/-- Closed form of the reference loop: the running lists are the aggregates
in spec order appended to their initial values, and the entry status keeps
its fetched value unless at least one reference resolved, in which case its
resources and claims are the (fully re-derived) aggregates.  The conditions
field is never touched by the loop. -/
theorem resolveLoop_spec (store : ExportStore) (exports : List ExportReference)
    (st : LoopState) :
    resolveLoop store exports st =
      { resources := st.resources ++ aggResources store exports
        exportPermissionClaims := st.exportPermissionClaims ++ aggClaims store exports
        invalidExports := st.invalidExports ++ invalidRefs store exports
        status :=
          if anySuccess store exports then
            { st.status with
              resources := st.resources ++ aggResources store exports
              exportPermissionClaims := st.exportPermissionClaims ++ aggClaims store exports }
          else st.status } := by
  induction exports generalizing st with
  | nil =>
    simp [resolveLoop, aggResources, aggClaims, invalidRefs, anySuccess]
  | cons ref rest ih =>
    rw [resolveLoop, ih]
    cases hs : store ref.path ref.exportName with
    | error e =>
      have hf : refFails store ref = true := by simp [refFails, hs]
      simp only [processExport, hs]
      simp only [aggResources, aggClaims, invalidRefs, anySuccess, List.any_cons,
        List.filter_cons, hf, hs, List.nil_append, Bool.not_true, Bool.false_or,
        List.map_cons, ite_true, cond_true]
      simp [List.append_assoc]
    | ok exp =>
      have hf : refFails store ref = false := by simp [refFails, hs]
      simp only [processExport, hs]
      simp only [aggResources, aggClaims, invalidRefs, anySuccess, List.any_cons,
        List.filter_cons, hf, hs, Bool.not_false, Bool.true_or, if_true,
        Bool.false_eq_true, ite_false, ite_true, cond_false, cond_true]
      by_cases hA : anySuccess store rest = true
      · simp only [anySuccess] at hA
        simp [hA, List.append_assoc]
      · have hA' : anySuccess store rest = false := by
          cases h2 : anySuccess store rest
          · rfl
          · exact absurd h2 hA
        simp only [anySuccess] at hA'
        simp [hA', aggResources_eq_nil store rest (by simpa [anySuccess] using hA'),
          aggClaims_eq_nil store rest (by simpa [anySuccess] using hA'), List.append_assoc]

/-! ### Characterization of the conditions utility -/

theorem hasSameState_iff (a b : Condition) :
    hasSameState a b = true ↔ a.type = b.type ∧ a.status = b.status ∧ a.reason = b.reason ∧
      a.severity = b.severity ∧ a.message = b.message := by
  simp [hasSameState, Bool.and_eq_true, beq_iff_eq, and_assoc]

theorem countType_cons (d : Condition) (rest : List Condition) (t : String) :
    countType (d :: rest) t =
      if d.type == t then countType rest t + 1 else countType rest t := by
  simp only [countType, List.filter_cons]
  by_cases hd : (d.type == t) = true
  · simp [hd]
  · simp [hd]

theorem countType_append (l1 l2 : List Condition) (t : String) :
    countType (l1 ++ l2) t = countType l1 t + countType l2 t := by
  simp [countType, List.filter_append]

theorem countType_sortConds (conds : List Condition) (t : String) :
    countType (sortConds conds) t = countType conds t := by
  simp only [countType]
  exact ((List.perm_insertionSort condLE conds).filter _).length_eq

theorem sortConds_sorted (conds : List Condition) : List.Sorted condLE (sortConds conds) :=
  List.sorted_insertionSort condLE conds

theorem sortConds_of_sorted {conds : List Condition} (h : List.Sorted condLE conds) :
    sortConds conds = conds :=
  h.insertionSort_eq

theorem setLoop_eq_none_iff (c : Condition) (now : Nat) (conds : List Condition) :
    setLoop c now conds = none ↔ conds.filter (fun x => x.type == c.type) = [] := by
  induction conds with
  | nil => simp [setLoop]
  | cons d rest ih =>
    by_cases hd : (d.type == c.type) = true
    · by_cases hss : hasSameState d c = true
      · simp [setLoop, hd, hss, List.filter_cons]
      · simp [setLoop, hd, hss, List.filter_cons]
    · rw [setLoop]
      rw [if_neg (by simpa using hd)]
      cases hrest : setLoop c now rest with
      | none => simp [List.filter_cons, hd, ← ih, hrest]
      | some rest2 => simp [List.filter_cons, hd, ← ih, hrest]

theorem setLoop_countType (c : Condition) (now : Nat) (conds : List Condition) (t : String) :
    ∀ conds2, setLoop c now conds = some conds2 → countType conds2 t = countType conds t := by
  induction conds with
  | nil => intro conds2 h; simp [setLoop] at h
  | cons d rest ih =>
    intro conds2 h
    by_cases hd : (d.type == c.type) = true
    · rw [setLoop, if_pos (by simpa using hd)] at h
      by_cases hss : hasSameState d c = true
      · rw [if_pos (by simpa using hss)] at h
        cases h
        rfl
      · rw [if_neg (by simpa using hss)] at h
        cases h
        have hdc : d.type = c.type := by simpa [beq_iff_eq] using hd
        rw [countType_cons, countType_cons]
        simp only [hdc]
    · rw [setLoop, if_neg (by simpa using hd)] at h
      cases hrest : setLoop c now rest with
      | none => rw [hrest] at h; cases h
      | some rest2 =>
        rw [hrest] at h
        cases h
        rw [countType_cons, countType_cons, ih rest2 hrest]

theorem conditionsSet_countType (conds : List Condition) (c : Condition) (now : Nat) :
    countType (conditionsSet conds c now) c.type = max (countType conds c.type) 1 := by
  unfold conditionsSet
  cases hsl : setLoop c now conds with
  | some conds2 =>
    rw [countType_sortConds, setLoop_countType c now conds c.type conds2 hsl]
    have hne : conds.filter (fun x => x.type == c.type) ≠ [] := by
      intro hnil
      rw [(setLoop_eq_none_iff c now conds).mpr hnil] at hsl
      cases hsl
    have hge : 1 ≤ countType conds c.type := by
      cases hfe : conds.filter (fun x => x.type == c.type) with
      | nil => exact absurd hfe hne
      | cons a l => simp [countType, hfe]
    omega
  | none =>
    rw [countType_sortConds, countType_append]
    have h0 : countType conds c.type = 0 := by
      rw [countType, (setLoop_eq_none_iff c now conds).mp hsl]
      rfl
    rw [h0, countType_cons]
    simp [countType]

theorem setLoop_same (c : Condition) (now : Nat) (conds : List Condition) (d0 : Condition)
    (hf : conds.filter (fun x => x.type == c.type) = [d0])
    (hss : hasSameState d0 c = true) :
    setLoop c now conds = some conds := by
  induction conds with
  | nil => simp at hf
  | cons d rest ih =>
    by_cases hd : (d.type == c.type) = true
    · rw [List.filter_cons, if_pos hd] at hf
      have hd0 : d = d0 := (List.cons.injEq _ _ _ _).mp hf |>.1
      subst hd0
      rw [setLoop, if_pos (by simpa using hd), if_pos (by simpa using hss)]
    · rw [List.filter_cons, if_neg hd] at hf
      rw [setLoop, if_neg (by simpa using hd), ih hf]

theorem setLoop_filter (c : Condition) (now : Nat) (conds : List Condition) (d0 : Condition)
    (hf : conds.filter (fun x => x.type == c.type) = [d0]) :
    ∀ conds2, setLoop c now conds = some conds2 →
      conds2.filter (fun x => x.type == c.type) =
        [if hasSameState d0 c then d0 else { c with lastTransitionTime := now }] := by
  induction conds with
  | nil => simp at hf
  | cons d rest ih =>
    intro conds2 h
    by_cases hd : (d.type == c.type) = true
    · rw [List.filter_cons, if_pos hd] at hf
      have hd0 : d = d0 := (List.cons.injEq _ _ _ _).mp hf |>.1
      have hrest : rest.filter (fun x => x.type == c.type) = [] :=
        (List.cons.injEq _ _ _ _).mp hf |>.2
      subst hd0
      rw [setLoop, if_pos (by simpa using hd)] at h
      by_cases hss : hasSameState d c = true
      · rw [if_pos (by simpa using hss)] at h
        cases h
        rw [List.filter_cons, if_pos hd, hrest, if_pos (by simpa using hss)]
      · rw [if_neg (by simpa using hss)] at h
        cases h
        rw [List.filter_cons, if_pos (by simp), hrest,
          if_neg (by simpa using hss)]
    · rw [List.filter_cons, if_neg hd] at hf
      rw [setLoop, if_neg (by simpa using hd)] at h
      cases hrest2 : setLoop c now rest with
      | none => rw [hrest2] at h; cases h
      | some rest2 =>
        rw [hrest2] at h
        cases h
        rw [List.filter_cons, if_neg hd]
        exact ih hf rest2 hrest2

theorem conditionsSet_filter (conds : List Condition) (c : Condition) (now : Nat)
    (h : countType conds c.type ≤ 1) :
    ∃ d, (conditionsSet conds c now).filter (fun x => x.type == c.type) = [d] ∧
      d.type = c.type ∧ d.status = c.status ∧ d.reason = c.reason ∧
      d.severity = c.severity ∧ d.message = c.message := by
  unfold conditionsSet
  cases hsl : setLoop c now conds with
  | none =>
    have hnil := (setLoop_eq_none_iff c now conds).mp hsl
    have hperm := (List.perm_insertionSort condLE
      (conds ++ [{ c with lastTransitionTime := if c.lastTransitionTime = 0 then now
                    else c.lastTransitionTime }])).filter (fun x => x.type == c.type)
    rw [List.filter_append, hnil, List.nil_append, List.filter_cons,
      if_pos (show ((({ c with lastTransitionTime := if c.lastTransitionTime = 0 then now
        else c.lastTransitionTime } : Condition)).type == c.type) = true by simp),
      List.filter_nil] at hperm
    exact ⟨_, List.perm_singleton.mp hperm, rfl, rfl, rfl, rfl, rfl⟩
  | some conds2 =>
    have hne : conds.filter (fun x => x.type == c.type) ≠ [] := by
      intro hnil
      rw [(setLoop_eq_none_iff c now conds).mpr hnil] at hsl
      cases hsl
    have hlen : (conds.filter (fun x => x.type == c.type)).length = 1 := by
      have : 1 ≤ countType conds c.type := by
        cases hfe : conds.filter (fun x => x.type == c.type) with
        | nil => exact absurd hfe hne
        | cons a l => simp [countType, hfe]
      have h2 := h
      rw [countType] at h2 this
      omega
    obtain ⟨d0, hf⟩ := List.length_eq_one.mp hlen
    have hf2 := setLoop_filter c now conds d0 hf conds2 hsl
    have hperm := (List.perm_insertionSort condLE conds2).filter (fun x => x.type == c.type)
    rw [hf2] at hperm
    by_cases hss : hasSameState d0 c = true
    · obtain ⟨ht, hs, hr, hsev, hm⟩ := (hasSameState_iff d0 c).mp hss
      refine ⟨d0, ?_, ht, hs, hr, hsev, hm⟩
      rw [if_pos (by simpa using hss)] at hperm
      simpa [sortConds] using List.perm_singleton.mp hperm
    · refine ⟨{ c with lastTransitionTime := now }, ?_, rfl, rfl, rfl, rfl, rfl⟩
      rw [if_neg (by simpa using hss)] at hperm
      simpa [sortConds] using List.perm_singleton.mp hperm

theorem conditionsSet_sorted (conds : List Condition) (c : Condition) (now : Nat) :
    List.Sorted condLE (conditionsSet conds c now) := by
  unfold conditionsSet
  cases setLoop c now conds with
  | none => exact sortConds_sorted _
  | some conds2 => exact sortConds_sorted _

/-- Writing a condition whose state matches the one already stored (with at
most one condition of that type present) leaves the condition list
unchanged. -/
theorem conditionsSet_stable (conds : List Condition) (c c2 : Condition) (t1 t2 : Nat)
    (hsame : hasSameState c c2 = true)
    (h : countType conds c.type ≤ 1) :
    conditionsSet (conditionsSet conds c t1) c2 t2 = conditionsSet conds c t1 := by
  obtain ⟨hct, hcs, hcr, hcsev, hcm⟩ := (hasSameState_iff c c2).mp hsame
  obtain ⟨d, hd, hdt, hds, hdr, hdsev, hdm⟩ := conditionsSet_filter conds c t1 h
  have hss2 : hasSameState d c2 = true := by
    rw [hasSameState_iff]
    exact ⟨hdt.trans hct, hds.trans hcs, hdr.trans hcr, hdsev.trans hcsev, hdm.trans hcm⟩
  have hf2 : (conditionsSet conds c t1).filter (fun x => x.type == c2.type) = [d] := by
    rw [← hct]
    exact hd
  conv_lhs => rw [conditionsSet, setLoop_same c2 t2 _ d hf2 hss2]
  exact sortConds_of_sorted (conditionsSet_sorted conds c t1)

/-! ### Characterization of one pass -/

theorem computeCondition_type (inv : List String) (now : Nat) :
    (computeCondition inv now).type = APIExportValidType := by
  unfold computeCondition
  by_cases hinv : inv.isEmpty = true
  · rw [if_pos hinv]
  · rw [if_neg hinv]

theorem computeCondition_sameState (inv : List String) (t1 t2 : Nat) :
    hasSameState (computeCondition inv t1) (computeCondition inv t2) = true := by
  unfold computeCondition
  by_cases hinv : inv.isEmpty = true
  · rw [if_pos hinv, if_pos hinv]
    simp [hasSameState]
  · rw [if_neg hinv, if_neg hinv]
    simp [hasSameState]

/-- Closed form of the candidate status a pass computes: resources and claims
are the pass aggregates when at least one reference resolved and the fetched
values otherwise, and the `APIExportValid` condition is set over the fetched
condition list. -/
theorem candidateStatus_def (store : ExportStore) (now : Nat) (entry : CatalogEntry) :
    candidateStatus store now entry =
      { resources :=
          if anySuccess store entry.spec.exports then aggResources store entry.spec.exports
          else entry.status.resources
        exportPermissionClaims :=
          if anySuccess store entry.spec.exports then aggClaims store entry.spec.exports
          else entry.status.exportPermissionClaims
        conditions :=
          conditionsSet entry.status.conditions
            (computeCondition (invalidRefs store entry.spec.exports) now) now } := by
  unfold candidateStatus resolveExports
  rw [resolveLoop_spec]
  by_cases hA : anySuccess store entry.spec.exports = true
  · simp [initState, hA]
  · simp [initState, hA]

/-- One pass is idempotent on the status: a second pass over the entry left
by a first pass (same store contents) recomputes exactly that status. -/
theorem candidateStatus_idem (store : ExportStore) (t1 t2 : Nat) (entry e1 : CatalogEntry)
    (hspec : e1.spec = entry.spec)
    (hstat : e1.status = candidateStatus store t1 entry)
    (h : countType entry.status.conditions APIExportValidType ≤ 1) :
    candidateStatus store t2 e1 = e1.status := by
  have hone : countType entry.status.conditions
      (computeCondition (invalidRefs store entry.spec.exports) t1).type ≤ 1 := by
    rw [computeCondition_type]
    exact h
  have hstable := conditionsSet_stable entry.status.conditions
    (computeCondition (invalidRefs store entry.spec.exports) t1)
    (computeCondition (invalidRefs store entry.spec.exports) t2) t1 t2
    (computeCondition_sameState _ t1 t2) hone
  rw [candidateStatus_def store t2, hspec, hstat, candidateStatus_def store t1]
  by_cases hA : anySuccess store entry.spec.exports = true
  · simp [hA, hstable]
  · simp [hA, hstable]

/-- For a fetched entry, the in-memory entry after the pass is always the
fetched entry with the candidate status. -/
theorem Reconcile_entry (store : ExportStore) (u : Option GetErr) (now : Nat)
    (e : CatalogEntry) :
    (Reconcile (.ok e) store u now).entry =
      some { e with status := candidateStatus store now e } := by
  unfold Reconcile
  cases u
  · by_cases hq : candidateStatus store now e = e.status
    · simp [hq]
    · simp [hq]
  · by_cases hq : candidateStatus store now e = e.status
    · simp [hq]
    · simp [hq]

/-! ### Congruence: the pass only looks at the referenced lookups, and sees
failures only through their failure-ness -/

/-- Agreement of two stores over a reference list: same failure pattern and
same successfully returned exports; failing lookups may fail differently
(not-found versus any other error). -/
def StoresAgree (store store2 : ExportStore) (exports : List ExportReference) : Prop :=
  ∀ r ∈ exports, refFails store r = refFails store2 r ∧
    ∀ exp, store r.path r.exportName = .ok exp → store2 r.path r.exportName = .ok exp

theorem StoresAgree.tail {store store2 : ExportStore} {ref : ExportReference}
    {rest : List ExportReference} (h : StoresAgree store store2 (ref :: rest)) :
    StoresAgree store store2 rest :=
  fun r hr => h r (List.mem_cons_of_mem _ hr)

theorem StoresAgree.head_eq {store store2 : ExportStore} {ref : ExportReference}
    {rest : List ExportReference} (h : StoresAgree store store2 (ref :: rest)) :
    (∃ exp, store ref.path ref.exportName = .ok exp ∧
        store2 ref.path ref.exportName = .ok exp) ∨
      (refFails store ref = true ∧ refFails store2 ref = true) := by
  have hr := h ref (List.mem_cons_self _ _)
  cases hs : store ref.path ref.exportName with
  | ok exp => exact Or.inl ⟨exp, rfl, hr.2 exp hs⟩
  | error e =>
    have h1 : refFails store ref = true := by simp [refFails, hs]
    exact Or.inr ⟨h1, hr.1 ▸ h1⟩

theorem aggResources_congr (store store2 : ExportStore) (exports : List ExportReference)
    (hagree : StoresAgree store store2 exports) :
    aggResources store exports = aggResources store2 exports := by
  induction exports with
  | nil => rfl
  | cons ref rest ih =>
    unfold aggResources
    rw [ih hagree.tail]
    congr 1
    rcases hagree.head_eq with ⟨exp, hs, hs2⟩ | ⟨h1, h2⟩
    · rw [hs, hs2]
    · cases hs : store ref.path ref.exportName with
      | ok exp => simp [refFails, hs] at h1
      | error e =>
        cases hs2 : store2 ref.path ref.exportName with
        | ok exp2 => simp [refFails, hs2] at h2
        | error e2 => rfl

theorem aggClaims_congr (store store2 : ExportStore) (exports : List ExportReference)
    (hagree : StoresAgree store store2 exports) :
    aggClaims store exports = aggClaims store2 exports := by
  induction exports with
  | nil => rfl
  | cons ref rest ih =>
    unfold aggClaims
    rw [ih hagree.tail]
    congr 1
    rcases hagree.head_eq with ⟨exp, hs, hs2⟩ | ⟨h1, h2⟩
    · rw [hs, hs2]
    · cases hs : store ref.path ref.exportName with
      | ok exp => simp [refFails, hs] at h1
      | error e =>
        cases hs2 : store2 ref.path ref.exportName with
        | ok exp2 => simp [refFails, hs2] at h2
        | error e2 => rfl

theorem invalidRefs_congr (store store2 : ExportStore) (exports : List ExportReference)
    (hagree : StoresAgree store store2 exports) :
    invalidRefs store exports = invalidRefs store2 exports := by
  unfold invalidRefs
  congr 1
  exact List.filter_congr fun r hr => (hagree r hr).1

theorem anySuccess_congr (store store2 : ExportStore) (exports : List ExportReference)
    (hagree : StoresAgree store store2 exports) :
    anySuccess store exports = anySuccess store2 exports := by
  induction exports with
  | nil => rfl
  | cons ref rest ih =>
    simp only [anySuccess, List.any_cons]
    rw [(hagree ref (List.mem_cons_self _ _)).1]
    have ih2 := ih hagree.tail
    simp only [anySuccess] at ih2
    rw [ih2]

/-- The whole resolution-and-aggregation phase only depends on the store
through the referenced lookups, and on failing lookups only through the fact
that they fail. -/
theorem resolveExports_congr (store store2 : ExportStore) (exports : List ExportReference)
    (s0 : CatalogEntryStatus) (hagree : StoresAgree store store2 exports) :
    resolveExports store exports s0 = resolveExports store2 exports s0 := by
  unfold resolveExports
  rw [resolveLoop_spec, resolveLoop_spec, aggResources_congr store store2 exports hagree,
    aggClaims_congr store store2 exports hagree, invalidRefs_congr store store2 exports hagree,
    anySuccess_congr store store2 exports hagree]

/-! ### Concrete fixtures -/

/-- A store in which every export lookup fails with not-found. -/
def storeMissing : ExportStore := fun _ _ => .error .notFound

/-- A store in which every export lookup fails with a non-not-found error. -/
def storeBoom : ExportStore := fun _ _ => .error (.other "boom")

/-- Export A of the spec's all-valid aggregation example: one well-formed
schema identifier and one permission claim on configmaps. -/
def exportA : APIExport :=
  { latestResourceSchemas := ["v1.tests.catalog.kcp.dev"]
    permissionClaims := [{ group := "", resource := "configmaps", identityHash := "" }] }

/-- Export C of the spec's all-valid aggregation example: exposes nothing. -/
def exportC : APIExport := { latestResourceSchemas := [], permissionClaims := [] }

/-- Export B: a single malformed schema identifier. -/
def exportBad : APIExport := { latestResourceSchemas := ["badformat"], permissionClaims := [] }

/-- A store holding exports A and C in workspace "root:w". -/
def storeAC : ExportStore := fun path name =>
  if path = "root:w" ∧ name = "A" then .ok exportA
  else if path = "root:w" ∧ name = "C" then .ok exportC
  else .error .notFound

/-- A store holding only export B in workspace "root:w". -/
def storeB : ExportStore := fun path name =>
  if path = "root:w" ∧ name = "B" then .ok exportBad
  else .error .notFound

/-- Entry referencing exports A and C, with an empty status. -/
def entryAC : CatalogEntry :=
  { name := "e"
    spec := { exports := [⟨"root:w", "A"⟩, ⟨"root:w", "C"⟩], description := "" }
    status := { exportPermissionClaims := [], resources := [], conditions := [] } }

/-- Entry referencing two nonexistent exports, with an empty status. -/
def entryTwoBad : CatalogEntry :=
  { name := "e"
    spec := { exports := [⟨"root:a", "x"⟩, ⟨"root:b", "y"⟩], description := "" }
    status := { exportPermissionClaims := [], resources := [], conditions := [] } }

/-- Entry referencing one nonexistent export, carrying a non-empty prior
status from an earlier pass. -/
def entryPrior : CatalogEntry :=
  { name := "e"
    spec := { exports := [⟨"root:a", "x"⟩], description := "" }
    status := { exportPermissionClaims := [{ group := "", resource := "secrets", identityHash := "" }]
                resources := [{ group := "g", resource := "r" }]
                conditions := [] } }

/-- Entry referencing export B (one malformed schema identifier), with an
empty status. -/
def entryB : CatalogEntry :=
  { name := "e"
    spec := { exports := [⟨"root:w", "B"⟩], description := "" }
    status := { exportPermissionClaims := [], resources := [], conditions := [] } }

/-- Entry referencing exports A and C but carrying a non-empty prior
status. -/
def entryACprior : CatalogEntry :=
  { name := "e"
    spec := { exports := [⟨"root:w", "A"⟩, ⟨"root:w", "C"⟩], description := "" }
    status := { exportPermissionClaims := [{ group := "", resource := "secrets", identityHash := "" }]
                resources := [{ group := "old", resource := "old" }]
                conditions := [] } }

/-- A store extensionally answering like `storeAC` on the references of
`entryAC` but written differently. -/
def storeAC2 : ExportStore := fun path name =>
  if name = "A" ∧ path = "root:w" then .ok exportA
  else if name = "C" ∧ path = "root:w" then .ok exportC
  else .error .notFound

/-- The entry a convergent pass over `entryAC` leaves behind. -/
def entryACdone : CatalogEntry :=
  { name := "e"
    spec := { exports := [⟨"root:w", "A"⟩, ⟨"root:w", "C"⟩], description := "" }
    status := { exportPermissionClaims := [{ group := "", resource := "configmaps", identityHash := "" }]
                resources := [{ group := "catalog.kcp.dev", resource := "tests" }]
                conditions := [{ type := APIExportValidType, status := ConditionTrue
                                 severity := SeverityNone, reason := "", message := ""
                                 lastTransitionTime := 7 }] } }

/-! ### The claims -/

/-- C4: at the fetch step, a nonexistent entry is a terminal no-op — success,
no status write, no error; any other read error is returned to the caller
with no status write. -/
theorem C4_fetch_errors (store : ExportStore) (u : Option GetErr) (now : Nat) (msg : String) :
    Reconcile (.error .notFound) store u now =
      { err := none, statusWrite := none, entry := none } ∧
    Reconcile (.error (.other msg)) store u now =
      { err := some (.other msg), statusWrite := none, entry := none } :=
  ⟨rfl, rfl⟩

/-- C7: with exports [A, C] both resolving, A exposing schema
"v1.tests.catalog.kcp.dev" and a configmaps claim and C exposing nothing,
the pass produces resources [{group: catalog.kcp.dev, resource: tests}],
claims [{resource: configmaps}], and an APIExportValid condition with
status True. -/
theorem C7_all_valid_aggregation :
    ((Reconcile (.ok entryAC) storeAC none 7).entry.map fun e => e.status.resources) =
      some [{ group := "catalog.kcp.dev", resource := "tests" }] ∧
    ((Reconcile (.ok entryAC) storeAC none 7).entry.map fun e => e.status.exportPermissionClaims) =
      some [{ group := "", resource := "configmaps", identityHash := "" }] ∧
    ((Reconcile (.ok entryAC) storeAC none 7).entry.map fun e => e.status.conditions) =
      some [{ type := APIExportValidType, status := ConditionTrue, severity := SeverityNone
              reason := "", message := "", lastTransitionTime := 7 }] := by
  refine ⟨by decide, by decide, by decide⟩

/-- C10 (frame): a pass over a fetched entry leaves name and spec unchanged —
the in-memory entry after the pass is the fetched entry with only the status
replaced, and the only store write ever issued is a status update carrying
exactly that entry. -/
theorem C10_frame (store : ExportStore) (u : Option GetErr) (now : Nat) (entry : CatalogEntry) :
    (Reconcile (.ok entry) store u now).entry =
      some { name := entry.name, spec := entry.spec
             status := candidateStatus store now entry } ∧
    ((Reconcile (.ok entry) store u now).statusWrite = none ∨
      (Reconcile (.ok entry) store u now).statusWrite =
        some { name := entry.name, spec := entry.spec
               status := candidateStatus store now entry }) := by
  constructor
  · exact Reconcile_entry store u now entry
  · unfold Reconcile
    cases u
    · by_cases hq : candidateStatus store now entry = entry.status
      · simp [hq]
      · simp [hq]
    · by_cases hq : candidateStatus store now entry = entry.status
      · simp [hq]
      · simp [hq]

/-- C1 counterexample: with two failing references the condition message
joins the "path/exportName" strings with " ," (a space, then a comma), not
with ", " (comma, then space) as the claim states. -/
theorem C1_counterexample :
    ((Reconcile (.ok entryTwoBad) storeMissing none 3).entry.map
        fun e => e.status.conditions.map Condition.message) =
      some ["invalid export(s): root:a/x ,root:b/y"] ∧
    "invalid export(s): root:a/x ,root:b/y" ≠ "invalid export(s): root:a/x, root:b/y" :=
  ⟨by decide, by decide⟩

/-- C1 (amended): after all references are processed the single
APIExportValid condition has status True, severity none and no message when
the invalid-reference list is empty, and status False, severity Error and
message "invalid export(s): " followed by the failing "path/exportName"
strings joined with " ," (a space, then a comma), in failure order,
otherwise. -/
theorem C1_condition (store : ExportStore) (entry : CatalogEntry) (now : Nat)
    (h : countType entry.status.conditions APIExportValidType ≤ 1) :
    ∃ c, (candidateStatus store now entry).conditions.filter
        (fun x => x.type == APIExportValidType) = [c] ∧
      (invalidRefs store entry.spec.exports = [] →
        c.status = ConditionTrue ∧ c.severity = SeverityNone ∧ c.message = "") ∧
      (invalidRefs store entry.spec.exports ≠ [] →
        c.status = ConditionFalse ∧ c.severity = SeverityError ∧
        c.message = "invalid export(s): " ++
          String.intercalate " ," (invalidRefs store entry.spec.exports)) := by
  obtain ⟨d, hd, hdt, hds, hdr, hdsev, hdm⟩ :=
    conditionsSet_filter entry.status.conditions
      (computeCondition (invalidRefs store entry.spec.exports) now) now
      (by rw [computeCondition_type]; exact h)
  simp only [computeCondition_type] at hd
  refine ⟨d, ?_, ?_, ?_⟩
  · rw [candidateStatus_def]
    exact hd
  · intro hinv
    rw [hinv] at hds hdsev hdm
    exact ⟨by simpa [computeCondition] using hds,
      by simpa [computeCondition] using hdsev,
      by simpa [computeCondition] using hdm⟩
  · intro hinv
    cases hinv2 : invalidRefs store entry.spec.exports with
    | nil => exact absurd hinv2 hinv
    | cons a l =>
      rw [hinv2] at hds hdsev hdm
      exact ⟨by simpa [computeCondition] using hds,
        by simpa [computeCondition] using hdsev,
        by simpa [computeCondition] using hdm⟩

/-- C1 witness: the amended condition shape at a concrete input with two
failing references. -/
theorem C1_condition_witness :
    countType entryTwoBad.status.conditions APIExportValidType ≤ 1 ∧
    (∃ c, (candidateStatus storeMissing 3 entryTwoBad).conditions.filter
        (fun x => x.type == APIExportValidType) = [c] ∧
      (invalidRefs storeMissing entryTwoBad.spec.exports = [] →
        c.status = ConditionTrue ∧ c.severity = SeverityNone ∧ c.message = "") ∧
      (invalidRefs storeMissing entryTwoBad.spec.exports ≠ [] →
        c.status = ConditionFalse ∧ c.severity = SeverityError ∧
        c.message = "invalid export(s): " ++
          String.intercalate " ," (invalidRefs storeMissing entryTwoBad.spec.exports))) :=
  ⟨by decide, C1_condition storeMissing entryTwoBad 3 (by decide)⟩

/-- C2 counterexample: when zero references resolve, the pass aggregates
empty lists but the resulting status keeps its prior resources and claims —
the status fields are only assigned inside the loop, on success. -/
theorem C2_counterexample :
    (resolveExports storeMissing entryPrior.spec.exports entryPrior.status).resources = [] ∧
    (resolveExports storeMissing entryPrior.spec.exports
      entryPrior.status).exportPermissionClaims = [] ∧
    ((Reconcile (.ok entryPrior) storeMissing none 2).entry.map fun e => e.status.resources) =
      some [{ group := "g", resource := "r" }] ∧
    ((Reconcile (.ok entryPrior) storeMissing none 2).entry.map
        fun e => e.status.exportPermissionClaims) =
      some [{ group := "", resource := "secrets", identityHash := "" }] ∧
    ([{ group := "g", resource := "r" }] : List GroupResource) ≠ [] :=
  ⟨by decide, by decide, by decide, by decide, by decide⟩

/-- C2 (amended): in every pass in which at least one reference resolves
successfully, the status resources and claims are fully re-derived — they
equal the pass aggregates exactly, independent of the prior status. -/
theorem C2_full_replace (store : ExportStore) (entry : CatalogEntry) (now : Nat)
    (h : anySuccess store entry.spec.exports = true) :
    (candidateStatus store now entry).resources = aggResources store entry.spec.exports ∧
    (candidateStatus store now entry).exportPermissionClaims =
      aggClaims store entry.spec.exports ∧
    (Reconcile (.ok entry) store none now).entry =
      some { entry with status := candidateStatus store now entry } := by
  refine ⟨?_, ?_, Reconcile_entry store none now entry⟩
  · rw [candidateStatus_def]
    simp [h]
  · rw [candidateStatus_def]
    simp [h]

/-- C2 witness: full replacement of a non-empty prior status at a concrete
input with resolving references. -/
theorem C2_full_replace_witness :
    anySuccess storeAC entryACprior.spec.exports = true ∧
    ((candidateStatus storeAC 5 entryACprior).resources =
        aggResources storeAC entryACprior.spec.exports ∧
      (candidateStatus storeAC 5 entryACprior).exportPermissionClaims =
        aggClaims storeAC entryACprior.spec.exports ∧
      (Reconcile (.ok entryACprior) storeAC none 5).entry =
        some { entryACprior with status := candidateStatus storeAC 5 entryACprior }) :=
  ⟨by decide, C2_full_replace storeAC entryACprior 5 (by decide)⟩

/-- C3: reference lookup failures are all handled the same way — the pass
outcome is unchanged when failures fail differently (not-found versus other),
the invalid list is exactly the failing "path/exportName" strings in order
(so resolution proceeded past every failure), and a pass over a fetched
entry never returns an error because of reference failures. -/
theorem C3_reference_failures (store store2 : ExportStore) (entry : CatalogEntry) (now : Nat)
    (hagree : StoresAgree store store2 entry.spec.exports) :
    resolveExports store entry.spec.exports entry.status =
      resolveExports store2 entry.spec.exports entry.status ∧
    (resolveExports store entry.spec.exports entry.status).invalidExports =
      invalidRefs store entry.spec.exports ∧
    (Reconcile (.ok entry) store none now).err = none := by
  refine ⟨resolveExports_congr store store2 entry.spec.exports entry.status hagree, ?_, ?_⟩
  · unfold resolveExports
    rw [resolveLoop_spec]
    simp [initState]
  · unfold Reconcile
    by_cases hq : candidateStatus store now entry = entry.status
    · simp [hq]
    · simp [hq]

/-- C3 witness: a store failing with not-found and a store failing with a
different error produce the same pass outcome on a concrete entry. -/
theorem C3_reference_failures_witness :
    resolveExports storeMissing entryTwoBad.spec.exports entryTwoBad.status =
      resolveExports storeBoom entryTwoBad.spec.exports entryTwoBad.status ∧
    (resolveExports storeMissing entryTwoBad.spec.exports entryTwoBad.status).invalidExports =
      invalidRefs storeMissing entryTwoBad.spec.exports ∧
    (Reconcile (.ok entryTwoBad) storeMissing none 3).err = none :=
  C3_reference_failures storeMissing storeBoom entryTwoBad 3
    (fun r _ => ⟨rfl, fun exp hexp => by simp [storeMissing] at hexp⟩)

/-- C5: a candidate status equal to the fetched one means no write and no
error, and a second pass over the entry a first pass leaves behind (same
store contents, unchanged spec) is a no-op — so an unchanged entry takes at
most one status write across two consecutive passes. -/
theorem C5_idempotent (store : ExportStore) (entry : CatalogEntry)
    (updateErr : Option GetErr) (t1 t2 : Nat)
    (h : countType entry.status.conditions APIExportValidType ≤ 1) :
    (candidateStatus store t1 entry = entry.status →
      Reconcile (.ok entry) store updateErr t1 =
        { err := none, statusWrite := none, entry := some entry }) ∧
    (Reconcile (.ok entry) store none t1).entry =
      some { entry with status := candidateStatus store t1 entry } ∧
    Reconcile (.ok { entry with status := candidateStatus store t1 entry }) store none t2 =
      { err := none, statusWrite := none
        entry := some { entry with status := candidateStatus store t1 entry } } := by
  refine ⟨?_, Reconcile_entry store none t1 entry, ?_⟩
  · intro heq
    unfold Reconcile
    simp [heq]
  · have hidem : candidateStatus store t2
        { entry with status := candidateStatus store t1 entry } =
        candidateStatus store t1 entry := by
      have h2 := candidateStatus_idem store t1 t2 entry
        { entry with status := candidateStatus store t1 entry } rfl rfl h
      simpa using h2
    unfold Reconcile
    simp [hidem]

/-- C5 witness: a converged concrete entry reconciles to no write and no
error, and so does the entry a first pass leaves behind. -/
theorem C5_idempotent_witness :
    countType entryACdone.status.conditions APIExportValidType ≤ 1 ∧
    ((candidateStatus storeAC 9 entryACdone = entryACdone.status →
      Reconcile (.ok entryACdone) storeAC none 9 =
        { err := none, statusWrite := none, entry := some entryACdone }) ∧
    (Reconcile (.ok entryACdone) storeAC none 9).entry =
      some { entryACdone with status := candidateStatus storeAC 9 entryACdone } ∧
    Reconcile (.ok { entryACdone with status := candidateStatus storeAC 9 entryACdone })
        storeAC none 11 =
      { err := none, statusWrite := none
        entry := some { entryACdone with status := candidateStatus storeAC 9 entryACdone } }) :=
  ⟨by decide, C5_idempotent storeAC entryACdone none 9 11 (by decide)⟩

/-- C6: schema identifiers that `split3` rejects (fewer than three
dot-separated components) contribute nothing — dropping them from the input
leaves the parsed resource list unchanged — and concretely an export whose
only schema is "badformat" yields no resources, no error and a True
condition. -/
theorem C6_malformed_dropped :
    (∀ schemas : List String,
      resourcesOf schemas =
        resourcesOf (schemas.filter (fun s => (split3 s '.').2.2.2))) ∧
    ((Reconcile (.ok entryB) storeB none 4).entry.map fun e => e.status.resources) =
      some [] ∧
    ((Reconcile (.ok entryB) storeB none 4).entry.map fun e => e.status.conditions) =
      some [{ type := APIExportValidType, status := ConditionTrue, severity := SeverityNone
              reason := "", message := "", lastTransitionTime := 4 }] ∧
    ((Reconcile (.ok entryB) storeB none 4).err = none) := by
  refine ⟨?_, by decide, by decide, by decide⟩
  intro schemas
  induction schemas with
  | nil => rfl
  | cons s rest ih =>
    rcases h3 : split3 s '.' with ⟨v, rr, g, ok⟩
    cases ok
    · simp only [resourcesOf, h3, List.filter_cons]
      rw [if_neg (by simp [h3])]
      exact ih
    · simp only [List.filter_cons]
      rw [if_pos (by simp [h3])]
      simp only [resourcesOf, h3]
      rw [ih]

/-- C8: the APIExportValid condition slot is written update-in-place keyed
on the type — the pass leaves max(fetched count, 1) conditions of that type
(insert if absent, overwrite otherwise, never a duplicating append), so an
entry holding at most one such condition holds exactly one after the pass. -/
theorem C8_condition_slot (store : ExportStore) (entry : CatalogEntry) (now : Nat)
    (h : countType entry.status.conditions APIExportValidType ≤ 1) :
    countType (candidateStatus store now entry).conditions APIExportValidType =
      max (countType entry.status.conditions APIExportValidType) 1 ∧
    countType (candidateStatus store now entry).conditions APIExportValidType = 1 := by
  have hmax : countType (candidateStatus store now entry).conditions APIExportValidType =
      max (countType entry.status.conditions APIExportValidType) 1 := by
    rw [candidateStatus_def]
    have hcount := conditionsSet_countType entry.status.conditions
      (computeCondition (invalidRefs store entry.spec.exports) now) now
    rw [computeCondition_type] at hcount
    exact hcount
  exact ⟨hmax, by omega⟩

/-- C8 witness: a concrete pass over an entry with no prior condition leaves
exactly one APIExportValid condition. -/
theorem C8_condition_slot_witness :
    countType entryAC.status.conditions APIExportValidType ≤ 1 ∧
    (countType (candidateStatus storeAC 7 entryAC).conditions APIExportValidType =
      max (countType entryAC.status.conditions APIExportValidType) 1 ∧
    countType (candidateStatus storeAC 7 entryAC).conditions APIExportValidType = 1) :=
  ⟨by decide, C8_condition_slot storeAC entryAC 7 (by decide)⟩

/-- C9: for a fixed ordered reference list and fixed export contents, the
resolution-and-aggregation phase is deterministic — two runs against stores
answering identically on the referenced lookups produce identical resources
and claims (content and order, duplicates included) and an identical
resulting status. -/
theorem C9_deterministic (store store2 : ExportStore) (exports : List ExportReference)
    (s0 : CatalogEntryStatus)
    (hagree : ∀ r ∈ exports, store r.path r.exportName = store2 r.path r.exportName) :
    (resolveExports store exports s0).resources =
      (resolveExports store2 exports s0).resources ∧
    (resolveExports store exports s0).exportPermissionClaims =
      (resolveExports store2 exports s0).exportPermissionClaims ∧
    (resolveExports store exports s0).status = (resolveExports store2 exports s0).status := by
  have hag : StoresAgree store store2 exports := by
    intro r hr
    refine ⟨?_, ?_⟩
    · unfold refFails
      rw [hagree r hr]
    · intro exp hexp
      rw [← hagree r hr]
      exact hexp
  rw [resolveExports_congr store store2 exports s0 hag]
  exact ⟨rfl, rfl, rfl⟩

/-- C9 witness: two syntactically different stores answering identically on
the referenced lookups give identical aggregation on a concrete entry. -/
theorem C9_deterministic_witness :
    (resolveExports storeAC entryAC.spec.exports entryAC.status).resources =
      (resolveExports storeAC2 entryAC.spec.exports entryAC.status).resources ∧
    (resolveExports storeAC entryAC.spec.exports entryAC.status).exportPermissionClaims =
      (resolveExports storeAC2 entryAC.spec.exports entryAC.status).exportPermissionClaims ∧
    (resolveExports storeAC entryAC.spec.exports entryAC.status).status =
      (resolveExports storeAC2 entryAC.spec.exports entryAC.status).status :=
  C9_deterministic storeAC storeAC2 entryAC.spec.exports entryAC.status (by
    intro r hr
    rcases List.mem_cons.mp hr with rfl | hr2
    · rfl
    · rcases List.mem_cons.mp hr2 with rfl | hr3
      · rfl
      · simp at hr3)

end Catalog
